import Mathlib

/-!
# Verification of `helpers/template_processor.py`

A shallow embedding of the variable-resolution and file-generation pipeline
of the C++20 project scaffolder, together with proofs of the specification's
claims about it.

Strings are modelled as `List Char`.  Python values appearing in variable
mappings are modelled by the inductive type `PyVal`.  File-system contents and
the Jinja2 rendering engine are external collaborators and enter the model as
explicit oracle parameters.
-/

set_option maxHeartbeats 1000000

/-- Python values as they occur in the variable mappings of the generator:
`None`, strings, integers, booleans, and nested dictionaries (association
lists, insertion-ordered like Python dicts). -/
inductive PyVal where
  | none : PyVal
  | str : List Char → PyVal
  | int : Int → PyVal
  | bool : Bool → PyVal
  | dict : List (List Char × PyVal) → PyVal

/-- A Python dictionary mapping variable names to values, modelled as an
insertion-ordered association list (Python dicts preserve insertion order). -/
abbrev VarMap := List (List Char × PyVal)

/-! ## `_default_filter` (template_processor.py, lines 49-51)

    return value if value is not None and value != '' else default_value
-/

/-- Python `value is not None`: true unless the value is the `None` object. -/
def pyIsNotNone : PyVal → Bool
  | PyVal.none => false
  | _ => true

/-- Python `value != ''` on the values of our domain: among `PyVal` values only
the empty string compares equal to `''` (cross-type `==` against a string is
`False` in Python for `None`, ints, bools and dicts). -/
def pyNeEmptyStr : PyVal → Bool
  | PyVal.str [] => false
  | _ => true

/-- `TemplateProcessor._default_filter`:
`value if value is not None and value != '' else default_value`. -/
def _default_filter (value : PyVal) (default_value : PyVal) : PyVal :=
  if pyIsNotNone value && pyNeEmptyStr value then value else default_value

/-! ## `_to_cpp_identifier_filter` (template_processor.py, lines 53-62) -/

/-- Python `str.isalpha` restricted to the ASCII letters; the source's
`isalpha` is Unicode-aware, and this alphabet test is used uniformly on both
the code side and the spec side of every claim about the filter. -/
def pyIsAlpha (c : Char) : Bool := c.isAlpha

/-- Python `str.replace(old, new)` for non-empty `old`: replace every
non-overlapping occurrence of `old`, scanning left to right.  Structural
recursion via a fuel argument; every scanning step consumes at least one
character of `s`, so `s.length` fuel always suffices.  (All call sites in the
source use a non-empty `old`; for an empty `old` this model is the
identity.) -/
def replaceAllAux (pat repl : List Char) : Nat → List Char → List Char
  | 0, s => s
  | fuel + 1, s =>
      if pat ≠ [] ∧ pat.isPrefixOf s then
        repl ++ replaceAllAux pat repl fuel (s.drop pat.length)
      else
        match s with
        | [] => []
        | c :: cs => c :: replaceAllAux pat repl fuel cs

/-- Python `s.replace(pat, repl)` for non-empty `pat`. -/
def replaceAll (pat repl s : List Char) : List Char :=
  replaceAllAux pat repl s.length s

/-- Head test of `_to_cpp_identifier_filter`:
`result[0].isalpha() or result[0] == '_'` (false for the empty string, where
the source never evaluates it thanks to the `result and` guard). -/
def headIsAlphaOrUnderscore : List Char → Bool
  | [] => false
  | c :: _ => pyIsAlpha c || c = '_'

/-- `TemplateProcessor._to_cpp_identifier_filter`: empty input is returned
unchanged; otherwise hyphens are replaced by underscores and, when the result
does not start with a letter or underscore, one underscore is prefixed. -/
def _to_cpp_identifier_filter (value : List Char) : List Char :=
  if value = [] then value
  else
    let result := replaceAll ['-'] ['_'] value
    if result ≠ [] ∧ ¬ headIsAlphaOrUnderscore result then '_' :: result
    else result

/-! ## `merge_variables` (template_processor.py, lines 114-127)

    result = {}
    for var_dict in variable_dicts:
        result.update(var_dict)
    return result
-/

/-- One step of Python `dict.update`: setting key `e.1` to value `e.2`.
If the key is already present its value is replaced in place (position kept),
otherwise the pair is appended at the end. -/
def dictInsert (m : VarMap) (e : List Char × PyVal) : VarMap :=
  if m.any (fun x => x.1 == e.1) then
    m.map (fun x => if x.1 = e.1 then e else x)
  else
    m ++ [e]

/-- Python `result.update(d)`: insert the items of `d` in order. -/
def dictUpdate (m d : VarMap) : VarMap := d.foldl dictInsert m

/-- `TemplateProcessor.merge_variables(*variable_dicts)`: start from the empty
dict and `update` with each argument in turn, later arguments taking
precedence. -/
def merge_variables (variable_dicts : List VarMap) : VarMap :=
  variable_dicts.foldl dictUpdate []

/-- The keys of a variable mapping, in order. -/
def varKeys (m : VarMap) : List (List Char) := m.map Prod.fst

/-! ## The template library on disk

`get_template_files`, `generate_project_files` and `_copy_shared_files` walk
the directory `templates_dir`.  The tree is modelled as the list of its files
(in `os.walk` traversal order) plus the list of its existing directories; a
path below the root is a list of directory components plus a filename. -/

/-- One file of the template library: directory components below the
templates root, filename, and raw content. -/
structure FSFile where
  dirs : List (List Char)
  name : List Char
  content : List Char
  deriving DecidableEq

/-- The template library directory: its files in `os.walk` traversal order
and its existing subdirectories (as component lists).  A directory may exist
and contain no files. -/
structure TemplatesFS where
  files : List FSFile
  dirs : List (List (List Char))

/-- The marker suffix distinguishing template files: `.template`. -/
def markerSuffix : List Char := (".template").toList

/-- The script extension: `.sh`. -/
def scriptExt : List Char := (".sh").toList

/-- The name of the shared subtree: `shared`. -/
def sharedDirName : List Char := ("shared").toList

/-- Join directory components and a filename with `/` separators, as
`os.path.relpath(os.path.join(root, file), templates_dir)` produces for a
file below the templates root. -/
def joinPath (dirs : List (List Char)) (name : List Char) : List Char :=
  dirs.foldr (fun d acc => d ++ '/' :: acc) name

/-- Whether a file lies below the subdirectory `d` of the templates root. -/
def isUnderDir (d : List Char) (f : FSFile) : Bool :=
  match f.dirs with
  | [] => false
  | d0 :: _ => d0 == d

/-- Errors of the generation pipeline: the `ValueError` raised by
`get_template_files` for a missing category, and the
`FileNotFoundError`/`RuntimeError` (with message) that `process_template`
raises on a rendering or lookup failure. -/
inductive GenError where
  | categoryNotFound (project_type : List Char)
  | processError (msg : List Char)

/-- `TemplateProcessor.get_template_files(project_type)`: raise `ValueError`
if the category directory does not exist; otherwise walk it and keep exactly
the files whose filename ends with `.template`, as paths relative to the
templates root. -/
def get_template_files (fs : TemplatesFS) (project_type : List Char) :
    Except GenError (List (List Char)) :=
  if fs.dirs.contains [project_type] then
    Except.ok (((fs.files.filter
        (fun f => isUnderDir project_type f && markerSuffix.isSuffixOf f.name)).map
      (fun f => joinPath f.dirs f.name)))
  else
    Except.error (GenError.categoryNotFound project_type)

/-! ## Output-path derivation (template_processor.py, line 201)

    rel_output_path = template_file.replace(f"{project_type}/", "")
                                   .replace(".template", "")
-/

/-- The output path the generator derives for a template: Python
`str.replace` of every occurrence of `"<project_type>/"` by the empty string,
then of every occurrence of `".template"` by the empty string. -/
def derivePath (project_type template_file : List Char) : List Char :=
  replaceAll markerSuffix []
    (replaceAll (project_type ++ ['/']) [] template_file)

/-! ## `generate_project_files` (template_processor.py, lines 171-219)

The Jinja2 engine is an oracle `render` mapping a template path (relative to
the templates root) to rendered text or to the message of the exception
`process_template` raises for it.  A file write is a pair (destination path
relative to the output root, content written). -/

/-- The template-processing loop of `generate_project_files`: process the
discovered templates in order, writing each rendered result to its derived
output path, stopping at the first rendering failure.  Returns the writes
performed and the error that stopped the loop, if any. -/
def generateLoop (render : List Char → Except (List Char) (List Char))
    (project_type : List Char) :
    List (List Char) → List (List Char × List Char) →
      List (List Char × List Char) × Option (List Char)
  | [], acc => (acc, none)
  | t :: ts, acc =>
      match render t with
      | Except.error e => (acc, some e)
      | Except.ok content =>
          generateLoop render project_type ts
            (acc ++ [(derivePath project_type t, content)])

/-! ## Pathlib suffix handling for shared files -/

/-- Python `str.rfind('.')`: the largest index holding `'.'`, if any. -/
def rfindDot (s : List Char) : Option Nat :=
  match s.reverse.findIdx? (fun c => c = '.') with
  | some j => some (s.length - 1 - j)
  | none => none

/-- `pathlib.PurePath.suffix` of a filename: the substring from the last dot
onwards, provided that dot is neither the first nor the last character;
otherwise the empty string. -/
def pathSuffix (name : List Char) : List Char :=
  match rfindDot name with
  | some i => if 0 < i ∧ i < name.length - 1 then name.drop i else []
  | none => []

/-- `pathlib.PurePath.with_suffix('')` on a filename: drop the suffix. -/
def withSuffixEmpty (name : List Char) : List Char :=
  name.take (name.length - (pathSuffix name).length)

/-- Destination filename of a shared file: the `.template` marker is
stripped when it is the pathlib suffix of the source filename
(template_processor.py, lines 246-248). -/
def sharedDestName (name : List Char) : List Char :=
  if pathSuffix name = markerSuffix then withSuffixEmpty name else name

/-! ## `_copy_shared_files` (template_processor.py, lines 221-284) -/

/-- The outcome of processing one shared file: destination path relative to
the output root, content written there, whether the byte-for-byte copy
fallback was taken, the warning surfaced (if any), and whether the
destination was made executable. -/
structure SharedOutcome where
  dest : List Char
  content : List Char
  fellBack : Bool
  warning : Option (List Char)
  madeExec : Bool

/-- The warning `_copy_shared_files` prints when a shared script fails to
render (template_processor.py, line 273). -/
def sharedWarningMsg (srcPath msg : List Char) : List Char :=
  ("Warning: Failed to process shared script ").toList ++ srcPath ++
    (" as template: ").toList ++ msg ++ (". Copying directly.").toList

/-- Processing of one shared file by `_copy_shared_files`: attempt to render
it as a template; on success write the rendered text, on any failure fall
back to a byte-for-byte copy of the source, warning first when the
destination is a `.sh` script; finally mark `.sh` destinations executable. -/
def processSharedFile (render : List Char → Except (List Char) (List Char))
    (f : FSFile) : SharedOutcome :=
  let destName := sharedDestName f.name
  let destRel := joinPath (f.dirs.drop 1) destName
  let srcPath := joinPath f.dirs f.name
  match render srcPath with
  | Except.ok content =>
      { dest := destRel, content := content, fellBack := false,
        warning := none, madeExec := pathSuffix destName == scriptExt }
  | Except.error e =>
      { dest := destRel, content := f.content, fellBack := true,
        warning := if pathSuffix destName == scriptExt
          then some (sharedWarningMsg srcPath e) else none,
        madeExec := pathSuffix destName == scriptExt }

/-- The shared files of the template library in traversal order; empty when
the `shared` directory does not exist (template_processor.py, lines
233-235). -/
def sharedFilesOf (fs : TemplatesFS) : List FSFile :=
  if fs.dirs.contains [sharedDirName] then
    fs.files.filter (isUnderDir sharedDirName)
  else []

/-- `TemplateProcessor._copy_shared_files(output_path, variables)`: process
every shared file in traversal order. -/
def _copy_shared_files (render : List Char → Except (List Char) (List Char))
    (fs : TemplatesFS) : List SharedOutcome :=
  (sharedFilesOf fs).map (processSharedFile render)

/-- The full result of `generate_project_files`: the project-template writes,
the shared-file outcomes, and the fatal error if one occurred. -/
structure GenResult where
  writes : List (List Char × List Char)
  shared : List SharedOutcome
  err : Option GenError

/-- `TemplateProcessor.generate_project_files(output_dir, project_type,
variables, copy_shared)`: discover the category's templates (fatal
`ValueError` if the category is missing), render and write each in order
(fatal on the first failure), then, when requested and only after every
project template succeeded, process the shared files. -/
def generate_project_files (fs : TemplatesFS)
    (render : List Char → Except (List Char) (List Char))
    (project_type : List Char) (copy_shared : Bool) : GenResult :=
  match get_template_files fs project_type with
  | Except.error e => { writes := [], shared := [], err := some e }
  | Except.ok template_files =>
      match generateLoop render project_type template_files [] with
      | (writes, some e) =>
          { writes := writes, shared := [],
            err := some (GenError.processError e) }
      | (writes, none) =>
          if copy_shared then
            { writes := writes, shared := _copy_shared_files render fs,
              err := none }
          else
            { writes := writes, shared := [], err := none }

/-- The list `generate_project_files` returns on success: the destination
path of every project-specific write followed by the destination path of
every shared outcome. -/
def generatedPaths (r : GenResult) : List (List Char) :=
  r.writes.map Prod.fst ++ r.shared.map SharedOutcome.dest

/-! ## `load_variables_from_file` (template_processor.py, lines 94-112)

The file system and the JSON parser are oracles: `readFile` is the file's
content or `none` when opening raises `FileNotFoundError`; `parseJson` is
`json.load`, returning a mapping or the message of a `JSONDecodeError`. -/

/-- The warning printed for a missing configuration file. -/
def configMissingMsg (config_file : List Char) : List Char :=
  ("Warning: Configuration file '").toList ++ config_file ++
    ("' not found. Using defaults.").toList

/-- The message printed for a malformed configuration file; it embeds the
parse error. -/
def configBadJsonMsg (config_file err : List Char) : List Char :=
  ("Error: Invalid JSON in '").toList ++ config_file ++ ("': ").toList ++ err

/-- `TemplateProcessor.load_variables_from_file(config_file)`: return the
parsed mapping; degrade to an empty mapping plus one diagnostic message when
the file is missing or its content is not valid JSON.  Every outcome is a
normal return — no exception escapes to the caller. -/
def load_variables_from_file (readFile : Option (List Char))
    (parseJson : List Char → Except (List Char) VarMap)
    (config_file : List Char) : VarMap × List (List Char) :=
  match readFile with
  | none => ([], [configMissingMsg config_file])
  | some content =>
      match parseJson content with
      | Except.ok vars => (vars, [])
      | Except.error e => ([], [configBadJsonMsg config_file e])

/-! ## Spec-side definitions

These follow the specification's words, for comparison with the definitions
above (which follow the source). -/

/-- Modelled from the spec (§4.3): the identifier filter replaces every
hyphen with an underscore and then, if the first character is not a letter or
underscore, prefixes an underscore; the empty string is returned unchanged. -/
def specIdentifierFilter (s : List Char) : List Char :=
  if s = [] then s
  else
    let r := s.map (fun c => if c = '-' then '_' else c)
    if headIsAlphaOrUnderscore r then r else '_' :: r

/-- The validity rule of claim C6: the string contains no hyphen and is
empty or starts with a letter or underscore. -/
def identifierValid (s : List Char) : Bool :=
  !(s.contains '-') && (match s with
    | [] => true
    | c :: _ => pyIsAlpha c || c = '_')

/-- A string free of path separators, as every single path component and
filename of a real file system is. -/
def slashFree (s : List Char) : Bool := !(s.contains '/')

/-! ## Concrete fixtures used by the witnesses -/

/-- Defaults mapping for the merge witness, with a nested mapping at
`optional_libraries` (cf. `get_default_variables`). -/
def sampleDefaults : VarMap :=
  [((("project_name").toList), PyVal.str (("MyProject").toList)),
   ((("optional_libraries").toList),
     PyVal.dict [((("fmt").toList), PyVal.bool true),
                 ((("spdlog").toList), PyVal.bool true)])]

/-- Config mapping for the merge witness: a nested mapping at
`optional_libraries` with sub-keys disjoint from the overrides' ones. -/
def sampleConfig : VarMap :=
  [((("optional_libraries").toList),
     PyVal.dict [((("boost").toList), PyVal.bool true)])]

/-- Overrides mapping for the merge witness: another nested mapping at
`optional_libraries`, sub-keys disjoint from the config's ones. -/
def sampleOverrides : VarMap :=
  [((("optional_libraries").toList),
     PyVal.dict [((("openssl").toList), PyVal.bool false)])]

/-- The key the merge witness inspects. -/
def sampleKey : List Char := ("optional_libraries").toList

/-- A console template file of the sample template library. -/
def sampleMainTemplate : FSFile :=
  { dirs := [("console").toList], name := ("main.cpp.template").toList,
    content := ("int main() { return 0; }").toList }

/-- A console file without the marker suffix. -/
def sampleReadme : FSFile :=
  { dirs := [("console").toList], name := ("README.md").toList,
    content := ("readme").toList }

/-- A nested console template file. -/
def sampleUtilTemplate : FSFile :=
  { dirs := [("console").toList, ("src").toList],
    name := ("util.hpp.template").toList, content := ("pragma").toList }

/-- A shared script template file (`shared/scripts/build.sh.template`). -/
def sharedScriptTemplateFile : FSFile :=
  { dirs := [("shared").toList, ("scripts").toList],
    name := ("build.sh.template").toList,
    content := ("#!/bin/bash\necho build").toList }

/-- A shared cmake module that is not a template. -/
def sharedCmakeFile : FSFile :=
  { dirs := [("shared").toList], name := ("FindFmt.cmake").toList,
    content := ("find_package(fmt)").toList }

/-- The sample template library used by the witnesses. -/
def sampleFS : TemplatesFS :=
  { files := [sampleMainTemplate, sampleReadme, sampleUtilTemplate,
      sharedScriptTemplateFile, sharedCmakeFile],
    dirs := [[("console").toList], [("console").toList, ("src").toList],
      [("shared").toList], [("shared").toList, ("scripts").toList]] }

/-- A rendering oracle that succeeds on every template. -/
def renderAllOk : List Char → Except (List Char) (List Char) :=
  fun _ => Except.ok (("rendered").toList)

/-- A rendering oracle that fails exactly on the nested console template. -/
def renderFailUtil : List Char → Except (List Char) (List Char) :=
  fun t =>
    if t = ("console/src/util.hpp.template").toList then
      Except.error (("undefined variable cpp_standard").toList)
    else Except.ok (("rendered").toList)

/-- A rendering oracle that succeeds on the console templates and fails
exactly on the shared script template. -/
def renderFailSharedScript : List Char → Except (List Char) (List Char) :=
  fun t =>
    if t = ("shared/scripts/build.sh.template").toList then
      Except.error (("unexpected char").toList)
    else Except.ok (("rendered").toList)

/-- A rendering oracle that fails on every file. -/
def alwaysFailRender : List Char → Except (List Char) (List Char) :=
  fun _ => Except.error (("not a template").toList)

/-- A JSON-parser oracle that rejects every input with a fixed message. -/
def alwaysFailParse : List Char → Except (List Char) VarMap :=
  fun _ => Except.error (("Expecting value: line 1 column 1 (char 0)").toList)

/-! # Theorems -/

/-! ## Lemmas about `replaceAll` -/

theorem replaceAllAux_le (pat repl : List Char) :
    ∀ fuel f s, s.length ≤ f → f ≤ fuel →
      replaceAllAux pat repl f s = replaceAllAux pat repl s.length s := by
  intro fuel
  induction fuel with
  | zero =>
      intro f s hsf hf
      have hf0 : f = 0 := Nat.le_zero.mp hf
      subst hf0
      have hs0 : s = [] := List.eq_nil_of_length_eq_zero (Nat.le_zero.mp hsf)
      subst hs0
      rfl
  | succ n ih =>
      intro f s hsf hf
      cases f with
      | zero =>
          have hs0 : s = [] := List.eq_nil_of_length_eq_zero (Nat.le_zero.mp hsf)
          subst hs0
          rfl
      | succ g =>
          cases s with
          | nil =>
              show replaceAllAux pat repl (g + 1) [] = replaceAllAux pat repl 0 []
              simp only [replaceAllAux]
              rw [if_neg]
              rintro ⟨hne, hpre⟩
              cases pat with
              | nil => exact hne rfl
              | cons a as => simp [List.isPrefixOf] at hpre
          | cons c cs =>
              simp only [List.length_cons] at hsf
              show replaceAllAux pat repl (g + 1) (c :: cs) =
                replaceAllAux pat repl (cs.length + 1) (c :: cs)
              simp only [replaceAllAux]
              by_cases hguard : pat ≠ [] ∧ pat.isPrefixOf (c :: cs) = true
              · rw [if_pos hguard, if_pos hguard]
                have hpat1 : 1 ≤ pat.length := by
                  cases pat with
                  | nil => exact absurd rfl hguard.1
                  | cons a as => simp
                have hlen : ((c :: cs).drop pat.length).length ≤ cs.length := by
                  simp only [List.length_drop, List.length_cons]
                  omega
                have h1 := ih g ((c :: cs).drop pat.length)
                  (le_trans hlen (by omega)) (by omega)
                have h2 := ih cs.length ((c :: cs).drop pat.length) hlen (by omega)
                rw [h1, h2]
              · rw [if_neg hguard, if_neg hguard]
                have h1 := ih g cs (by omega) (by omega)
                have h2 := ih cs.length cs (le_refl _) (by omega)
                simp only [h1, h2]

theorem replaceAllAux_eq_replaceAll (pat repl : List Char) (fuel : Nat)
    (s : List Char) (h : s.length ≤ fuel) :
    replaceAllAux pat repl fuel s = replaceAll pat repl s :=
  replaceAllAux_le pat repl fuel fuel s h (le_refl _)

/-- Scanning a string that starts with the pattern replaces that occurrence
and continues after it. -/
theorem replaceAll_head_match (pat repl s : List Char) (hne : pat ≠ []) :
    replaceAll pat repl (pat ++ s) = repl ++ replaceAll pat repl s := by
  obtain ⟨a, as, rfl⟩ : ∃ a as, pat = a :: as := by
    cases pat with
    | nil => exact absurd rfl hne
    | cons a as => exact ⟨a, as, rfl⟩
  show replaceAllAux (a :: as) repl ((as ++ s).length + 1) (a :: (as ++ s)) =
    repl ++ replaceAll (a :: as) repl s
  simp only [replaceAllAux]
  rw [if_pos ⟨List.cons_ne_nil a as,
    List.isPrefixOf_iff_prefix.mpr (List.prefix_append (a :: as) s)⟩]
  congr 1
  have hdrop : (a :: (as ++ s)).drop (a :: as).length = s := List.drop_left (a :: as) s
  rw [hdrop]
  exact replaceAllAux_eq_replaceAll _ _ _ _ (by simp)

/-- A string in which the pattern does not occur is scanned unchanged. -/
theorem replaceAll_no_occurrence (pat repl : List Char) :
    ∀ s, ¬ pat <:+: s → replaceAll pat repl s = s := by
  intro s
  induction s with
  | nil => intro _; rfl
  | cons c cs ih =>
      intro h
      have hpre : pat.isPrefixOf (c :: cs) = false := by
        by_contra hp
        have hp' : pat.isPrefixOf (c :: cs) = true := by
          cases hval : pat.isPrefixOf (c :: cs) with
          | true => rfl
          | false => exact absurd hval hp
        exact h (List.isPrefixOf_iff_prefix.mp hp').isInfix
      show replaceAllAux pat repl (cs.length + 1) (c :: cs) = c :: cs
      simp only [replaceAllAux]
      rw [if_neg (by simp [hpre])]
      have ihcs : replaceAll pat repl cs = cs :=
        ih (fun hinf => h (List.infix_cons hinf))
      exact congrArg (c :: ·) ihcs

/-- When the only occurrence of the pattern in `body ++ pat` is the final
one, scanning replaces exactly that trailing occurrence. -/
theorem replaceAll_trailing (pat repl : List Char) (hne : pat ≠ []) :
    ∀ body, ¬ pat <:+: (body ++ pat.dropLast) →
      replaceAll pat repl (body ++ pat) = body ++ repl := by
  intro body
  induction body with
  | nil =>
      intro _
      have h1 := replaceAll_head_match pat repl [] hne
      have h2 : replaceAll pat repl [] = [] := rfl
      rw [List.append_nil, h2, List.append_nil] at h1
      simpa using h1
  | cons c body ih =>
      intro h
      have hpre : pat.isPrefixOf (c :: (body ++ pat)) = false := by
        by_contra hp
        have hp' : pat.isPrefixOf (c :: (body ++ pat)) = true := by
          cases hval : pat.isPrefixOf (c :: (body ++ pat)) with
          | true => rfl
          | false => exact absurd hval hp
        have hp2 : pat <+: (c :: (body ++ pat)) := List.isPrefixOf_iff_prefix.mp hp'
        obtain ⟨t, ht⟩ := hp2
        have htne : t ≠ [] := by
          intro h0
          subst h0
          have := congrArg List.length ht
          simp at this
          omega
        obtain ⟨b, bs, rfl⟩ : ∃ b bs, t = b :: bs := by
          cases t with
          | nil => exact absurd rfl htne
          | cons b bs => exact ⟨b, bs, rfl⟩
        obtain ⟨q, qs, hq⟩ : ∃ q qs, pat = q :: qs := by
          cases pat with
          | nil => exact absurd rfl hne
          | cons q qs => exact ⟨q, qs, rfl⟩
        have hd : pat ++ (b :: bs).dropLast = (c :: body) ++ pat.dropLast := by
          have h1 : (pat ++ b :: bs).dropLast = pat ++ (b :: bs).dropLast :=
            List.dropLast_append_cons
          have h2 : ((c :: body) ++ pat).dropLast = (c :: body) ++ pat.dropLast := by
            rw [hq]
            exact List.dropLast_append_cons
          rw [← h1, ← h2, ht]
          rfl
        exact h ⟨[], (b :: bs).dropLast, by simpa using hd⟩
      show replaceAllAux pat repl ((body ++ pat).length + 1) (c :: (body ++ pat)) =
        (c :: body) ++ repl
      simp only [replaceAllAux]
      rw [if_neg (by simp [hpre])]
      have ihh : replaceAll pat repl (body ++ pat) = body ++ repl :=
        ih (fun hinf => h (List.infix_cons hinf))
      exact congrArg (c :: ·) ihh

/-- Replacing single hyphens by single underscores is a character map. -/
theorem replaceAll_hyphen (s : List Char) :
    replaceAll ['-'] ['_'] s = s.map (fun c => if c = '-' then '_' else c) := by
  induction s with
  | nil => rfl
  | cons c cs ih =>
      show replaceAllAux ['-'] ['_'] (cs.length + 1) (c :: cs) = _
      simp only [replaceAllAux]
      by_cases hc : c = '-'
      · subst hc
        rw [if_pos ⟨by simp, by simp [List.isPrefixOf]⟩]
        simpa using ih
      · rw [if_neg (by
          rintro ⟨-, hpre⟩
          have := List.isPrefixOf_iff_prefix.mp hpre
          obtain ⟨t, ht⟩ := this
          have : '-' = c := by
            have := congrArg (fun l => l.head?) ht
            simpa using this
          exact hc this.symm)]
        simp only [List.map_cons, if_neg hc]
        exact congrArg (c :: ·) ih


/-! ## C4 — the default filter -/

/-- C4: the default filter returns the fallback exactly when the input value
is null (`None`) or the empty string, and otherwise returns the input value
unchanged; in particular on `None`, `''` and `'y'` with fallback `'x'` it
returns `'x'`, `'x'` and `'y'`. -/
theorem default_filter_spec :
    (∀ d : PyVal, _default_filter PyVal.none d = d) ∧
    (∀ d : PyVal, _default_filter (PyVal.str []) d = d) ∧
    (∀ v d : PyVal, v ≠ PyVal.none → v ≠ PyVal.str [] → _default_filter v d = v) ∧
    _default_filter PyVal.none (PyVal.str (("x").toList)) = PyVal.str (("x").toList) ∧
    _default_filter (PyVal.str (("").toList)) (PyVal.str (("x").toList)) =
      PyVal.str (("x").toList) ∧
    _default_filter (PyVal.str (("y").toList)) (PyVal.str (("x").toList)) =
      PyVal.str (("y").toList) := by
  refine ⟨fun d => rfl, fun d => rfl, ?_, rfl, rfl, rfl⟩
  intro v d hn hs
  cases v with
  | none => exact absurd rfl hn
  | str s =>
      cases s with
      | nil => exact absurd rfl hs
      | cons c cs => rfl
  | int n => rfl
  | bool b => rfl
  | dict m => rfl

/-- C4 witness: the third conjunct applied at the concrete input `'y'`. -/
theorem default_filter_spec_witness :
    PyVal.str (("y").toList) ≠ PyVal.none ∧
    PyVal.str (("y").toList) ≠ PyVal.str [] ∧
    _default_filter (PyVal.str (("y").toList)) (PyVal.str (("x").toList)) =
      PyVal.str (("y").toList) := by
  refine ⟨?_, ?_, ?_⟩
  · intro h
    exact PyVal.noConfusion h
  · intro h
    injection h with h2
    exact absurd h2 (by decide)
  · exact default_filter_spec.2.2.1 (PyVal.str (("y").toList))
      (PyVal.str (("x").toList)) (fun h => PyVal.noConfusion h)
      (by intro h; injection h with h2; exact absurd h2 (by decide))

/-! ## C5 — the identifier filter matches its specification -/

/-- C5: the identifier filter agrees everywhere with the function described
by the specification (replace every hyphen by an underscore, then prefix one
underscore when the first character is not a letter or underscore; empty
input unchanged), and in particular maps `my-project` to `my_project`,
`123abc` to `_123abc` and the empty string to itself. -/
theorem to_cpp_identifier_filter_spec :
    (∀ s : List Char, _to_cpp_identifier_filter s = specIdentifierFilter s) ∧
    _to_cpp_identifier_filter (("my-project").toList) = ("my_project").toList ∧
    _to_cpp_identifier_filter (("123abc").toList) = ("_123abc").toList ∧
    _to_cpp_identifier_filter (("").toList) = ("").toList := by
  refine ⟨?_, by decide, by decide, by decide⟩
  intro s
  unfold _to_cpp_identifier_filter specIdentifierFilter
  by_cases hs : s = []
  · simp [hs]
  · rw [if_neg hs, if_neg hs]
    simp only [replaceAll_hyphen]
    have hr : s.map (fun c => if c = '-' then '_' else c) ≠ [] := by
      intro h0
      exact hs (List.map_eq_nil_iff.mp h0)
    by_cases hh : headIsAlphaOrUnderscore (s.map (fun c => if c = '-' then '_' else c)) = true
    · simp [hh]
    · simp [hh, hr]

/-! ## C6 — idempotence of the identifier filter on valid inputs -/

/-- The identifier filter fixes every string that already satisfies the
validity rule. -/
theorem to_cpp_identifier_fixes_valid (x : List Char)
    (h : identifierValid x = true) : _to_cpp_identifier_filter x = x := by
  unfold identifierValid at h
  rw [Bool.and_eq_true] at h
  obtain ⟨hnc, hhead⟩ := h
  cases x with
  | nil => rfl
  | cons c cs =>
      unfold _to_cpp_identifier_filter
      rw [if_neg (List.cons_ne_nil c cs)]
      have hmap : replaceAll ['-'] ['_'] (c :: cs) = c :: cs := by
        rw [replaceAll_hyphen]
        have hnomem : '-' ∉ c :: cs := by
          simp only [Bool.not_eq_eq_eq_not, Bool.not_true] at hnc
          simp at hnc
          intro hmem
          rcases List.mem_cons.mp hmem with h1 | h2
          · exact hnc.1 h1
          · exact hnc.2 h2
        calc (c :: cs).map (fun a => if a = '-' then '_' else a)
            = (c :: cs).map id := by
              apply List.map_congr_left
              intro a ha
              have : a ≠ '-' := fun h0 => hnomem (h0 ▸ ha)
              simp [this]
          _ = c :: cs := List.map_id (c :: cs)
      rw [hmap]
      rw [if_neg]
      rintro ⟨-, hnot⟩
      exact hnot (by simpa [headIsAlphaOrUnderscore] using hhead)

/-- C6: on every input already satisfying the validity rule (no hyphen, and
empty or starting with a letter or underscore) the identifier filter is
idempotent. -/
theorem to_cpp_identifier_filter_idempotent (x : List Char)
    (h : identifierValid x = true) :
    _to_cpp_identifier_filter (_to_cpp_identifier_filter x) =
      _to_cpp_identifier_filter x := by
  have hfix := to_cpp_identifier_fixes_valid x h
  rw [hfix, hfix]

/-- C6 witness: idempotence at the concrete valid input `my_project`. -/
theorem to_cpp_identifier_filter_idempotent_witness :
    identifierValid (("my_project").toList) = true ∧
    _to_cpp_identifier_filter (_to_cpp_identifier_filter (("my_project").toList)) =
      _to_cpp_identifier_filter (("my_project").toList) :=
  ⟨by decide, to_cpp_identifier_filter_idempotent (("my_project").toList) (by decide)⟩

/-! ## C2 — output-path derivation -/

/-- C2 counterexample: Python `str.replace` removes every occurrence, not
only the leading segment, so for the template path
`console/console/main.cpp.template` (category `console`) the derived output
path is `main.cpp`, not the claimed `console/main.cpp`. -/
theorem derivePath_counterexample :
    derivePath (("console").toList) (("console/console/main.cpp.template").toList) =
      ("main.cpp").toList ∧
    derivePath (("console").toList) (("console/console/main.cpp.template").toList) ≠
      ("console/main.cpp").toList := by
  refine ⟨by decide, ?_⟩
  intro h
  have h2 : (("main.cpp").toList : List Char) = ("console/main.cpp").toList := by
    rw [← h]
    decide
  exact absurd h2 (by decide)

/-- C2 amended: derivation removes every occurrence of `category/` and of the
marker suffix; when `category/` occurs nowhere in `<rest>/<name>.<marker>`
beyond the leading segment and the marker occurs only as the trailing
suffix, the derived output path is exactly `<rest>/<name>`. -/
theorem derivePath_amended (cat body : List Char)
    (h1 : ¬ (cat ++ ['/']) <:+: (body ++ markerSuffix))
    (h2 : ¬ markerSuffix <:+: (body ++ markerSuffix.dropLast)) :
    derivePath cat ((cat ++ ['/']) ++ (body ++ markerSuffix)) = body := by
  unfold derivePath
  rw [replaceAll_head_match _ _ _ (by simp)]
  rw [replaceAll_no_occurrence _ _ _ h1]
  simp only [List.nil_append]
  have h3 := replaceAll_trailing markerSuffix [] (by decide) body h2
  rw [h3, List.append_nil]

/-- C2 witness: the amended theorem at the specification's concrete example,
category `console` and template path `console/src/main.cpp.template`. -/
theorem derivePath_amended_witness :
    derivePath (("console").toList) (("console/src/main.cpp.template").toList) =
      ("src/main.cpp").toList := by
  have h := derivePath_amended (("console").toList) (("src/main.cpp").toList)
    (by decide) (by decide)
  have e : ((("console").toList ++ ['/']) ++ ((("src/main.cpp").toList) ++ markerSuffix)) =
      ("console/src/main.cpp.template").toList := by decide
  rw [e] at h
  exact h

/-! ## C1 — merge precedence lemmas -/

/-- Looking up the inserted key after an in-place replacement finds the new
value, provided the key was present. -/
theorem lookup_replace_here (k1 : List Char) (v : PyVal) :
    ∀ m : VarMap, m.any (fun x => x.1 == k1) = true →
      List.lookup k1 (m.map (fun x => if x.1 = k1 then (k1, v) else x)) = some v := by
  intro m
  induction m with
  | nil => intro h; simp at h
  | cons a rest ih =>
      intro h
      obtain ⟨ak, av⟩ := a
      simp only [List.map_cons]
      by_cases ha : (ak, av).1 = k1
      · rw [if_pos ha]
        simp [List.lookup]
      · rw [if_neg ha]
        simp only at ha
        rw [List.lookup_cons]
        have hbeq : (k1 == ak) = false := by
          simp only [beq_eq_false_iff_ne, ne_eq]
          exact fun h0 => ha h0.symm
        rw [hbeq]
        apply ih
        simp only [List.any_cons] at h
        rcases Bool.or_eq_true_iff.mp h with h1 | h2
        · exact absurd (by simpa using h1) ha
        · exact h2

/-- Looking up a different key is unaffected by an in-place replacement. -/
theorem lookup_replace_other (k k1 : List Char) (v : PyVal) (hk : k ≠ k1) :
    ∀ m : VarMap,
      List.lookup k (m.map (fun x => if x.1 = k1 then (k1, v) else x)) =
        List.lookup k m := by
  intro m
  induction m with
  | nil => rfl
  | cons a rest ih =>
      obtain ⟨ak, av⟩ := a
      simp only [List.map_cons]
      by_cases ha : (ak, av).1 = k1
      · rw [if_pos ha]
        simp only at ha
        subst ha
        rw [List.lookup_cons, List.lookup_cons]
        have hbeq : (k == ak) = false := by
          simp only [beq_eq_false_iff_ne, ne_eq]
          exact hk
        rw [hbeq]
        exact ih
      · rw [if_neg ha]
        rw [List.lookup_cons, List.lookup_cons]
        cases hbeq : (k == ak) with
        | true => rfl
        | false => exact ih

/-- Lookup over a concatenation tries the left part first. -/
theorem lookup_append_varmap (k : List Char) :
    ∀ m1 m2 : VarMap,
      List.lookup k (m1 ++ m2) =
        match List.lookup k m1 with
        | some v => some v
        | Option.none => List.lookup k m2 := by
  intro m1 m2
  induction m1 with
  | nil => rfl
  | cons a rest ih =>
      obtain ⟨ak, av⟩ := a
      rw [List.cons_append, List.lookup_cons, List.lookup_cons]
      cases hbeq : (k == ak) with
      | true => rfl
      | false => exact ih

/-- A key that no entry carries looks up to nothing. -/
theorem lookup_none_of_any_false (k1 : List Char) :
    ∀ m : VarMap, m.any (fun x => x.1 == k1) = false →
      List.lookup k1 m = Option.none := by
  intro m
  induction m with
  | nil => intro _; rfl
  | cons a rest ih =>
      intro h
      obtain ⟨ak, av⟩ := a
      simp only [List.any_cons, Bool.or_eq_false_iff] at h
      rw [List.lookup_cons]
      have hbeq : (k1 == ak) = false := by
        simp only [beq_eq_false_iff_ne, ne_eq]
        intro h0
        have := h.1
        simp [h0] at this
      rw [hbeq]
      exact ih h.2

/-- Lookup after one `dict.update` item: the inserted key now maps to the
inserted value, all other keys are untouched. -/
theorem lookup_dictInsert (m : VarMap) (k k1 : List Char) (v : PyVal) :
    List.lookup k (dictInsert m (k1, v)) =
      if k = k1 then some v else List.lookup k m := by
  unfold dictInsert
  by_cases hmem : m.any (fun x => x.1 == (k1, v).1) = true
  · rw [if_pos hmem]
    by_cases hk : k = k1
    · subst hk
      rw [if_pos rfl]
      exact lookup_replace_here k v m hmem
    · rw [if_neg hk]
      exact lookup_replace_other k k1 v hk m
  · rw [if_neg hmem]
    rw [lookup_append_varmap]
    by_cases hk : k = k1
    · subst hk
      rw [if_pos rfl]
      have h0 : List.lookup k m = Option.none :=
        lookup_none_of_any_false k m (Bool.not_eq_true _ ▸ Bool.of_not_eq_true hmem)
      rw [h0]
      simp [List.lookup]
    · rw [if_neg hk]
      have h1 : List.lookup k [(k1, v)] = Option.none := by
        rw [List.lookup_cons]
        have hbeq : (k == k1) = false := by
          simp only [beq_eq_false_iff_ne, ne_eq]
          exact hk
        rw [hbeq]
        rfl
      rw [h1]
      cases List.lookup k m with
      | none => rfl
      | some w => rfl

/-- Lookup after a whole `dict.update`: keys of the updating dict win, the
receiving dict is the fallback.  The updating dict has unique keys, as every
Python dict does. -/
theorem lookup_dictUpdate (k : List Char) :
    ∀ d m : VarMap, (varKeys d).Nodup →
      List.lookup k (dictUpdate m d) =
        match List.lookup k d with
        | some v => some v
        | Option.none => List.lookup k m := by
  intro d
  induction d with
  | nil => intro m _; rfl
  | cons a rest ih =>
      intro m h
      obtain ⟨ak, av⟩ := a
      have h' : (varKeys ((ak, av) :: rest)).Nodup = (ak :: varKeys rest).Nodup := rfl
      rw [h'] at h
      have hnd : (varKeys rest).Nodup := (List.nodup_cons.mp h).2
      have hnotin : ak ∉ varKeys rest := (List.nodup_cons.mp h).1
      have hstep : dictUpdate m ((ak, av) :: rest) =
          dictUpdate (dictInsert m (ak, av)) rest := rfl
      rw [hstep, ih _ hnd, List.lookup_cons]
      by_cases hk : k = ak
      · subst hk
        have hbeq : (k == k) = true := by simp
        rw [hbeq]
        have hrest : List.lookup k rest = Option.none := by
          apply lookup_none_of_any_false
          cases hval : rest.any (fun x => x.1 == k) with
          | false => rfl
          | true =>
              exfalso
              apply hnotin
              rcases List.any_eq_true.mp hval with ⟨x, hx, hbx⟩
              have : x.1 = k := by simpa using hbx
              rw [← this]
              exact List.mem_map_of_mem Prod.fst hx
        rw [hrest, lookup_dictInsert]
        simp
      · have hbeq : (k == ak) = false := by
          simp only [beq_eq_false_iff_ne, ne_eq]
          exact hk
        rw [hbeq]
        cases List.lookup k rest with
        | none =>
            rw [lookup_dictInsert]
            rw [if_neg hk]
        | some w => rfl

/-- C1: merging defaults, config and overrides is a shallow overwrite by
precedence — a key present in all three resolves to the overrides' value, a
key present only in defaults and config resolves to the config's value, and
when config and overrides both hold nested mappings at a key the merged
value is exactly the overrides' nested mapping, never a deep merge. -/
theorem merge_variables_precedence (D C O : VarMap) (k : List Char)
    (hD : (varKeys D).Nodup) (hC : (varKeys C).Nodup) (hO : (varKeys O).Nodup)
    (hkD : k ∈ varKeys D) :
    (k ∈ varKeys C → k ∈ varKeys O →
      List.lookup k (merge_variables [D, C, O]) = List.lookup k O) ∧
    (k ∈ varKeys C → k ∉ varKeys O →
      List.lookup k (merge_variables [D, C, O]) = List.lookup k C) ∧
    (∀ m1 m2, List.lookup k C = some (PyVal.dict m1) →
      List.lookup k O = some (PyVal.dict m2) →
      List.lookup k (merge_variables [D, C, O]) = some (PyVal.dict m2)) := by
  have hm : merge_variables [D, C, O] =
      dictUpdate (dictUpdate (dictUpdate [] D) C) O := rfl
  have hsome : ∀ m : VarMap, k ∈ varKeys m → ∃ v, List.lookup k m = some v := by
    intro m
    induction m with
    | nil => intro h; simp [varKeys] at h
    | cons a rest ih =>
        intro h
        obtain ⟨ak, av⟩ := a
        rw [List.lookup_cons]
        by_cases hk : k = ak
        · subst hk
          have hbeq : (k == k) = true := by simp
          rw [hbeq]
          exact ⟨av, rfl⟩
        · have hbeq : (k == ak) = false := by
            simp only [beq_eq_false_iff_ne, ne_eq]
            exact hk
          rw [hbeq]
          apply ih
          have : varKeys ((ak, av) :: rest) = ak :: varKeys rest := rfl
          rw [this] at h
          rcases List.mem_cons.mp h with h1 | h2
          · exact absurd h1 hk
          · exact h2
  have hnone : ∀ m : VarMap, k ∉ varKeys m → List.lookup k m = Option.none := by
    intro m hk
    apply lookup_none_of_any_false
    cases hval : m.any (fun x => x.1 == k) with
    | false => rfl
    | true =>
        exfalso
        apply hk
        rcases List.any_eq_true.mp hval with ⟨x, hx, hbx⟩
        have : x.1 = k := by simpa using hbx
        rw [← this]
        exact List.mem_map_of_mem Prod.fst hx
  have hmain : List.lookup k (merge_variables [D, C, O]) =
      match List.lookup k O with
      | some v => some v
      | Option.none =>
          match List.lookup k C with
          | some v => some v
          | Option.none => List.lookup k D := by
    rw [hm, lookup_dictUpdate k O _ hO, lookup_dictUpdate k C _ hC,
      lookup_dictUpdate k D _ hD]
    cases List.lookup k O with
    | none =>
        cases List.lookup k C with
        | none =>
            cases List.lookup k D with
            | none => rfl
            | some u => rfl
        | some w => rfl
    | some v => rfl
  refine ⟨?_, ?_, ?_⟩
  · intro _ hkO
    obtain ⟨v, hv⟩ := hsome O hkO
    rw [hmain, hv]
  · intro hkC hkO
    obtain ⟨w, hw⟩ := hsome C hkC
    rw [hmain, hnone O hkO, hw]
  · intro m1 m2 hC2 hO2
    rw [hmain, hO2]

/-- C1 witness: three concrete mappings with nested dictionaries carrying
disjoint sub-keys at the inspected key; the merged value is the overrides'
nested mapping. -/
theorem merge_variables_precedence_witness :
    (varKeys sampleDefaults).Nodup ∧ (varKeys sampleConfig).Nodup ∧
    (varKeys sampleOverrides).Nodup ∧ sampleKey ∈ varKeys sampleDefaults ∧
    sampleKey ∈ varKeys sampleConfig ∧ sampleKey ∈ varKeys sampleOverrides ∧
    List.lookup sampleKey
        (merge_variables [sampleDefaults, sampleConfig, sampleOverrides]) =
      List.lookup sampleKey sampleOverrides := by
  refine ⟨by decide, by decide, by decide, by decide, by decide, by decide, ?_⟩
  exact (merge_variables_precedence sampleDefaults sampleConfig sampleOverrides
    sampleKey (by decide) (by decide) (by decide) (by decide)).1
    (by decide) (by decide)

/-! ## C7 — template discovery -/

/-- Splitting at the first separator is unambiguous when the parts left of
the separators are separator-free. -/
theorem split_at_slash (x y : List Char) :
    ∀ a b : List Char, slashFree a = true → slashFree b = true →
      a ++ '/' :: x = b ++ '/' :: y → a = b ∧ x = y := by
  intro a
  induction a with
  | nil =>
      intro b ha hb h
      cases b with
      | nil =>
          simp only [List.nil_append] at h
          exact ⟨rfl, by injection h⟩
      | cons c bs =>
          simp only [List.nil_append, List.cons_append] at h
          injection h with h1 h2
          exfalso
          unfold slashFree at hb
          rw [← h1] at hb
          simp [List.contains_cons] at hb
  | cons c as ih =>
      intro b ha hb h
      cases b with
      | nil =>
          simp only [List.cons_append, List.nil_append] at h
          injection h with h1 h2
          exfalso
          unfold slashFree at ha
          rw [h1] at ha
          simp [List.contains_cons] at ha
      | cons d bs =>
          simp only [List.cons_append] at h
          injection h with h1 h2
          have ha' : slashFree as = true := by
            unfold slashFree at ha ⊢
            simp [List.contains_cons] at ha
            simp [ha.2]
          have hb' : slashFree bs = true := by
            unfold slashFree at hb ⊢
            simp [List.contains_cons] at hb
            simp [hb.2]
          obtain ⟨hab, hxy⟩ := ih bs ha' hb' h2
          exact ⟨by rw [h1, hab], hxy⟩

/-- `joinPath` is injective on slash-free components and filenames. -/
theorem joinPath_inj :
    ∀ d1 d2 : List (List Char), ∀ n1 n2 : List Char,
      (∀ c ∈ d1, slashFree c = true) → (∀ c ∈ d2, slashFree c = true) →
      slashFree n1 = true → slashFree n2 = true →
      joinPath d1 n1 = joinPath d2 n2 → d1 = d2 ∧ n1 = n2 := by
  intro d1
  induction d1 with
  | nil =>
      intro d2 n1 n2 _ hd2 hn1 _ h
      cases d2 with
      | nil => exact ⟨rfl, h⟩
      | cons c cs =>
          exfalso
          have h' : n1 = c ++ '/' :: joinPath cs n2 := h
          unfold slashFree at hn1
          rw [h'] at hn1
          simp at hn1
  | cons c cs ih =>
      intro d2 n1 n2 hd1 hd2 hn1 hn2 h
      cases d2 with
      | nil =>
          exfalso
          have h' : c ++ '/' :: joinPath cs n1 = n2 := h
          unfold slashFree at hn2
          rw [← h'] at hn2
          simp at hn2
      | cons d ds =>
          have h' : c ++ '/' :: joinPath cs n1 = d ++ '/' :: joinPath ds n2 := h
          have hc : slashFree c = true := hd1 c (List.mem_cons_self c cs)
          have hd : slashFree d = true := hd2 d (List.mem_cons_self d ds)
          obtain ⟨hcd, hrest⟩ := split_at_slash (joinPath cs n1) (joinPath ds n2)
            c d hc hd h'
          have hcs : ∀ x ∈ cs, slashFree x = true :=
            fun x hx => hd1 x (List.mem_cons_of_mem c hx)
          have hds : ∀ x ∈ ds, slashFree x = true :=
            fun x hx => hd2 x (List.mem_cons_of_mem d hx)
          obtain ⟨hd12, hn12⟩ := ih ds n1 n2 hcs hds hn1 hn2 hrest
          exact ⟨by rw [hcd, hd12], hn12⟩

/-- C7: template discovery fails with the category-not-found error exactly
when the category subtree does not exist; when it exists, a file below the
category root contributes an entry to the returned sequence if and only if
its filename ends with the marker suffix.  (Path components of a real file
system are slash-free, which makes template paths unambiguous.) -/
theorem get_template_files_spec (fs : TemplatesFS) (project_type : List Char)
    (hclean : ∀ f ∈ fs.files,
      slashFree f.name = true ∧ ∀ d ∈ f.dirs, slashFree d = true) :
    (get_template_files fs project_type =
        Except.error (GenError.categoryNotFound project_type) ↔
      [project_type] ∉ fs.dirs) ∧
    (∀ ts, get_template_files fs project_type = Except.ok ts →
      ∀ f ∈ fs.files, isUnderDir project_type f = true →
        (joinPath f.dirs f.name ∈ ts ↔ markerSuffix.isSuffixOf f.name = true)) := by
  constructor
  · unfold get_template_files
    by_cases hmem : [project_type] ∈ fs.dirs
    · have hc : fs.dirs.contains [project_type] = true := by simpa using hmem
      rw [if_pos hc]
      constructor
      · intro h
        exact absurd h (fun h0 => Except.noConfusion h0)
      · intro h
        exact absurd hmem h
    · rw [if_neg (by simpa using hmem)]
      exact ⟨fun _ => hmem, fun _ => rfl⟩
  · intro ts hts f hf hunder
    have hok : ts = (fs.files.filter
        (fun f => isUnderDir project_type f && markerSuffix.isSuffixOf f.name)).map
      (fun f => joinPath f.dirs f.name) := by
      unfold get_template_files at hts
      by_cases hc : fs.dirs.contains [project_type] = true
      · rw [if_pos hc] at hts
        injection hts with h0
        exact h0.symm
      · rw [if_neg (by simp at hc; simp [hc])] at hts
        exact absurd hts (fun h0 => Except.noConfusion h0)
    subst hok
    constructor
    · intro hmem
      rcases List.mem_map.mp hmem with ⟨g, hg, hjoin⟩
      have hgfiles : g ∈ fs.files := List.mem_of_mem_filter hg
      have hgpred := List.of_mem_filter hg
      rw [Bool.and_eq_true] at hgpred
      obtain ⟨hgname, hgdirs⟩ := hclean g hgfiles
      obtain ⟨hfname, hfdirs⟩ := hclean f hf
      obtain ⟨hdeq, hneq⟩ := joinPath_inj g.dirs f.dirs g.name f.name
        hgdirs hfdirs hgname hfname hjoin
      rw [← hneq]
      exact hgpred.2
    · intro hsuf
      apply List.mem_map_of_mem
      apply List.mem_filter_of_mem hf
      rw [Bool.and_eq_true]
      exact ⟨hunder, hsuf⟩

/-- C7 witness: on the sample library, discovery for `console` succeeds, the
marker-suffixed file below `console` is listed, and the non-template
`README.md` below `console` is not. -/
theorem get_template_files_spec_witness :
    (∀ f ∈ sampleFS.files,
      slashFree f.name = true ∧ ∀ d ∈ f.dirs, slashFree d = true) ∧
    joinPath sampleMainTemplate.dirs sampleMainTemplate.name ∈
      [("console/main.cpp.template").toList,
       ("console/src/util.hpp.template").toList] ∧
    joinPath sampleReadme.dirs sampleReadme.name ∉
      [("console/main.cpp.template").toList,
       ("console/src/util.hpp.template").toList] := by
  have hclean : ∀ f ∈ sampleFS.files,
      slashFree f.name = true ∧ ∀ d ∈ f.dirs, slashFree d = true := by decide
  have hspec := (get_template_files_spec sampleFS (("console").toList) hclean).2
    [("console/main.cpp.template").toList,
     ("console/src/util.hpp.template").toList] rfl
  refine ⟨hclean, ?_, ?_⟩
  · exact (hspec sampleMainTemplate (by decide) (by decide)).mpr (by decide)
  · intro hmem
    have := (hspec sampleReadme (by decide) (by decide)).mp hmem
    exact absurd this (by decide)

/-! ## C8 and C10 — the generation loop -/

/-- When every template renders, the loop finishes without an error and
appends one write per template, in order. -/
theorem generateLoop_all_ok (render : List Char → Except (List Char) (List Char))
    (project_type : List Char) :
    ∀ ts acc, (∀ t ∈ ts, (render t).isOk = true) →
      (generateLoop render project_type ts acc).2 = Option.none ∧
      (generateLoop render project_type ts acc).1.map Prod.fst =
        acc.map Prod.fst ++ ts.map (derivePath project_type) := by
  intro ts
  induction ts with
  | nil =>
      intro acc _
      exact ⟨rfl, by simp [generateLoop]⟩
  | cons t ts ih =>
      intro acc hok
      have hot : (render t).isOk = true := hok t (List.mem_cons_self t ts)
      cases hrt : render t with
      | error e => rw [hrt] at hot; simp [Except.isOk, Except.toBool] at hot
      | ok content =>
          have h0 : generateLoop render project_type (t :: ts) acc =
              (match render t with
               | Except.error e => (acc, some e)
               | Except.ok c => generateLoop render project_type ts
                   (acc ++ [(derivePath project_type t, c)])) := rfl
          have hstep : generateLoop render project_type (t :: ts) acc =
              generateLoop render project_type ts
                (acc ++ [(derivePath project_type t, content)]) := by
            rw [h0, hrt]
          rw [hstep]
          have hrest : ∀ u ∈ ts, (render u).isOk = true :=
            fun u hu => hok u (List.mem_cons_of_mem t hu)
          obtain ⟨h1, h2⟩ := ih (acc ++ [(derivePath project_type t, content)]) hrest
          refine ⟨h1, ?_⟩
          rw [h2]
          simp

/-- When every template before `t` renders and `t` fails, the loop stops at
`t` with its error, having written exactly the earlier templates. -/
theorem generateLoop_stops_at_failure
    (render : List Char → Except (List Char) (List Char))
    (project_type : List Char) (t : List Char) (e : List Char)
    (post : List (List Char)) (ht : render t = Except.error e) :
    ∀ pre acc, (∀ u ∈ pre, (render u).isOk = true) →
      (generateLoop render project_type (pre ++ t :: post) acc).2 = some e ∧
      (generateLoop render project_type (pre ++ t :: post) acc).1.map Prod.fst =
        acc.map Prod.fst ++ pre.map (derivePath project_type) := by
  intro pre
  induction pre with
  | nil =>
      intro acc _
      have h0 : generateLoop render project_type (t :: post) acc =
          (match render t with
           | Except.error e2 => (acc, some e2)
           | Except.ok c => generateLoop render project_type post
               (acc ++ [(derivePath project_type t, c)])) := rfl
      have hstep : generateLoop render project_type ([] ++ t :: post) acc =
          (acc, some e) := by
        show generateLoop render project_type (t :: post) acc = (acc, some e)
        rw [h0, ht]
      rw [hstep]
      exact ⟨rfl, by simp⟩
  | cons u pre ih =>
      intro acc hok
      have hou : (render u).isOk = true := hok u (List.mem_cons_self u pre)
      cases hru : render u with
      | error e2 => rw [hru] at hou; simp [Except.isOk, Except.toBool] at hou
      | ok content =>
          have h0 : generateLoop render project_type (u :: (pre ++ t :: post)) acc =
              (match render u with
               | Except.error e2 => (acc, some e2)
               | Except.ok c => generateLoop render project_type (pre ++ t :: post)
                   (acc ++ [(derivePath project_type u, c)])) := rfl
          have hstep : generateLoop render project_type ((u :: pre) ++ t :: post) acc =
              generateLoop render project_type (pre ++ t :: post)
                (acc ++ [(derivePath project_type u, content)]) := by
            show generateLoop render project_type (u :: (pre ++ t :: post)) acc = _
            rw [h0, hru]
          rw [hstep]
          have hrest : ∀ v ∈ pre, (render v).isOk = true :=
            fun v hv => hok v (List.mem_cons_of_mem u hv)
          obtain ⟨h1, h2⟩ := ih (acc ++ [(derivePath project_type u, content)]) hrest
          refine ⟨h1, ?_⟩
          rw [h2]
          simp

/-- C8: during project-specific generation a rendering or lookup failure is
fatal — generation stops at the first failing template with its error, the
writes performed are exactly those of the templates before the failure (in
order, and in particular they remain: there is no rollback), and no shared
file is processed afterwards. -/
theorem generate_project_files_aborts (fs : TemplatesFS)
    (render : List Char → Except (List Char) (List Char))
    (project_type : List Char) (copy_shared : Bool)
    (pre post : List (List Char)) (t e : List Char)
    (hdisc : get_template_files fs project_type = Except.ok (pre ++ t :: post))
    (hpre : ∀ u ∈ pre, (render u).isOk = true)
    (ht : render t = Except.error e) :
    (generate_project_files fs render project_type copy_shared).err =
      some (GenError.processError e) ∧
    (generate_project_files fs render project_type copy_shared).writes.map
      Prod.fst = pre.map (derivePath project_type) ∧
    (generate_project_files fs render project_type copy_shared).shared = [] := by
  obtain ⟨h1, h2⟩ :=
    generateLoop_stops_at_failure render project_type t e post ht pre [] hpre
  have hgen : generate_project_files fs render project_type copy_shared =
      (match generateLoop render project_type (pre ++ t :: post) [] with
       | (writes, some e2) =>
           { writes := writes, shared := [],
             err := some (GenError.processError e2) }
       | (writes, Option.none) =>
           if copy_shared then
             { writes := writes, shared := _copy_shared_files render fs,
               err := Option.none }
           else { writes := writes, shared := [], err := Option.none }) := by
    unfold generate_project_files
    rw [hdisc]
  rw [hgen]
  rcases hloop : generateLoop render project_type (pre ++ t :: post) [] with
    ⟨writes, err⟩
  rw [hloop] at h1 h2
  have he : err = some e := h1
  have hw : writes.map Prod.fst =
      ([] : List (List Char × List Char)).map Prod.fst ++
        pre.map (derivePath project_type) := h2
  subst he
  refine ⟨rfl, ?_, rfl⟩
  show writes.map Prod.fst = pre.map (derivePath project_type)
  simpa using hw

/-- C8 witness: on the sample library with an oracle failing on the second
console template, generation reports that failure, has written exactly the
first template's file, and has processed no shared file. -/
theorem generate_project_files_aborts_witness :
    get_template_files sampleFS (("console").toList) =
      Except.ok ([("console/main.cpp.template").toList] ++
        ("console/src/util.hpp.template").toList :: []) ∧
    renderFailUtil (("console/src/util.hpp.template").toList) =
      Except.error (("undefined variable cpp_standard").toList) ∧
    (generate_project_files sampleFS renderFailUtil (("console").toList)
        true).err =
      some (GenError.processError (("undefined variable cpp_standard").toList)) ∧
    (generate_project_files sampleFS renderFailUtil (("console").toList)
        true).writes.map Prod.fst =
      [("console/main.cpp.template").toList].map
        (derivePath (("console").toList)) ∧
    (generate_project_files sampleFS renderFailUtil (("console").toList)
        true).shared = [] := by
  have h := generate_project_files_aborts sampleFS renderFailUtil
    (("console").toList) true [("console/main.cpp.template").toList] []
    (("console/src/util.hpp.template").toList)
    (("undefined variable cpp_standard").toList) rfl
    (by
      intro u hu
      rcases List.mem_singleton.mp hu with rfl
      decide)
    rfl
  exact ⟨rfl, rfl, h.1, h.2.1, h.2.2⟩

/-- C10: when shared-file processing is enabled and every project template
renders, the returned list is the project-template destinations in discovery
order followed by the shared-file destinations in traversal order, with
exactly one entry per processed file (shared files contribute one entry
whether rendered or copied by fallback). -/
theorem generate_project_files_order (fs : TemplatesFS)
    (render : List Char → Except (List Char) (List Char))
    (project_type : List Char) (ts : List (List Char))
    (hdisc : get_template_files fs project_type = Except.ok ts)
    (hok : ∀ t ∈ ts, (render t).isOk = true) :
    (generate_project_files fs render project_type true).err = Option.none ∧
    generatedPaths (generate_project_files fs render project_type true) =
      ts.map (derivePath project_type) ++
        (sharedFilesOf fs).map (fun f => (processSharedFile render f).dest) ∧
    (generatedPaths (generate_project_files fs render project_type true)).length =
      ts.length + (sharedFilesOf fs).length := by
  obtain ⟨h1, h2⟩ := generateLoop_all_ok render project_type ts [] hok
  have hgen : generate_project_files fs render project_type true =
      (match generateLoop render project_type ts [] with
       | (writes, some e2) =>
           { writes := writes, shared := [],
             err := some (GenError.processError e2) }
       | (writes, Option.none) =>
           { writes := writes, shared := _copy_shared_files render fs,
             err := Option.none }) := by
    unfold generate_project_files
    rw [hdisc]
    rfl
  rw [hgen]
  rcases hloop : generateLoop render project_type ts [] with ⟨writes, err⟩
  rw [hloop] at h1 h2
  have he : err = Option.none := h1
  have hw : writes.map Prod.fst =
      ([] : List (List Char × List Char)).map Prod.fst ++
        ts.map (derivePath project_type) := h2
  subst he
  have hw2 : writes.map Prod.fst = ts.map (derivePath project_type) := by
    simpa using hw
  have hpaths : generatedPaths
      ({ writes := writes, shared := _copy_shared_files render fs,
         err := Option.none } : GenResult) =
      ts.map (derivePath project_type) ++
        (sharedFilesOf fs).map (fun f => (processSharedFile render f).dest) := by
    unfold generatedPaths _copy_shared_files
    simp only
    rw [hw2, List.map_map]
    rfl
  refine ⟨rfl, hpaths, ?_⟩
  show (generatedPaths
      ({ writes := writes, shared := _copy_shared_files render fs,
         err := Option.none } : GenResult)).length = _
  rw [hpaths, List.length_append, List.length_map, List.length_map]

/-- C10 witness: with an oracle that fails exactly on the shared script (so
that the script is copied by fallback), the returned list still holds the
two console destinations first and then one entry per shared file. -/
theorem generate_project_files_order_witness :
    (∀ t ∈ [("console/main.cpp.template").toList,
        ("console/src/util.hpp.template").toList],
      (renderFailSharedScript t).isOk = true) ∧
    generatedPaths (generate_project_files sampleFS renderFailSharedScript
        (("console").toList) true) =
      [("main.cpp").toList, ("src/util.hpp").toList,
       ("scripts/build.sh").toList, ("FindFmt.cmake").toList] := by
  constructor
  · intro t ht
    rcases List.mem_cons.mp ht with rfl | h2
    · decide
    · rcases List.mem_singleton.mp h2 with rfl
      decide
  · have h := generate_project_files_order sampleFS renderFailSharedScript
      (("console").toList)
      [("console/main.cpp.template").toList,
       ("console/src/util.hpp.template").toList] rfl
      (by
        intro t ht
        rcases List.mem_cons.mp ht with rfl | h2
        · decide
        · rcases List.mem_singleton.mp h2 with rfl
          decide)
    rw [h.2.1]
    decide

/-! ## C3 — shared-file fallback -/

/-- C3 counterexample: for the shared script template
`shared/scripts/build.sh.template` a rendering failure does surface a
warning, although the source file's extension is `.template`, not the script
extension — the source checks the destination's extension, not the
source's. -/
theorem shared_warning_counterexample :
    (processSharedFile alwaysFailRender sharedScriptTemplateFile).warning.isSome =
      true ∧
    pathSuffix sharedScriptTemplateFile.name ≠ scriptExt := by
  constructor
  · rfl
  · decide

/-- C3 amended: for every shared file whose rendering fails, processing
recovers — the destination is written with content byte-identical to the
source file — and a warning naming the source file and the failure reason is
surfaced if and only if the destination file (the source filename with a
trailing `.template` marker stripped) has the script extension `.sh`. -/
theorem shared_fallback_copies
    (render : List Char → Except (List Char) (List Char))
    (f : FSFile) (e : List Char)
    (hfail : render (joinPath f.dirs f.name) = Except.error e) :
    (processSharedFile render f).dest =
      joinPath (f.dirs.drop 1) (sharedDestName f.name) ∧
    (processSharedFile render f).content = f.content ∧
    (processSharedFile render f).fellBack = true ∧
    ((processSharedFile render f).warning.isSome = true ↔
      pathSuffix (sharedDestName f.name) = scriptExt) ∧
    (∀ w, (processSharedFile render f).warning = some w →
      joinPath f.dirs f.name <:+: w ∧ e <:+: w) := by
  have hred : processSharedFile render f =
      { dest := joinPath (f.dirs.drop 1) (sharedDestName f.name),
        content := f.content, fellBack := true,
        warning := if pathSuffix (sharedDestName f.name) == scriptExt
          then some (sharedWarningMsg (joinPath f.dirs f.name) e) else Option.none,
        madeExec := pathSuffix (sharedDestName f.name) == scriptExt } := by
    have hx : processSharedFile render f =
        (match render (joinPath f.dirs f.name) with
         | Except.ok content =>
             { dest := joinPath (f.dirs.drop 1) (sharedDestName f.name),
               content := content, fellBack := false, warning := Option.none,
               madeExec := pathSuffix (sharedDestName f.name) == scriptExt }
         | Except.error e2 =>
             { dest := joinPath (f.dirs.drop 1) (sharedDestName f.name),
               content := f.content, fellBack := true,
               warning := if pathSuffix (sharedDestName f.name) == scriptExt
                 then some (sharedWarningMsg (joinPath f.dirs f.name) e2)
                 else Option.none,
               madeExec := pathSuffix (sharedDestName f.name) == scriptExt }) :=
      rfl
    rw [hx, hfail]
  rw [hred]
  refine ⟨rfl, rfl, rfl, ?_, ?_⟩
  · by_cases hsh : pathSuffix (sharedDestName f.name) = scriptExt
    · have hbeq : (pathSuffix (sharedDestName f.name) == scriptExt) = true := by
        simpa using hsh
      simp only [hbeq, if_pos]
      exact ⟨fun _ => hsh, fun _ => rfl⟩
    · have hbeq : (pathSuffix (sharedDestName f.name) == scriptExt) = false := by
        simpa using hsh
      simp only [hbeq]
      constructor
      · intro h0
        simp at h0
      · intro h0
        exact absurd h0 hsh
  · intro w hw
    by_cases hsh : (pathSuffix (sharedDestName f.name) == scriptExt) = true
    · rw [if_pos hsh] at hw
      injection hw with hw2
      subst hw2
      constructor
      · exact ⟨("Warning: Failed to process shared script ").toList,
          (" as template: ").toList ++ e ++ (". Copying directly.").toList,
          by simp [sharedWarningMsg]⟩
      · exact ⟨("Warning: Failed to process shared script ").toList ++
            joinPath f.dirs f.name ++ (" as template: ").toList,
          (". Copying directly.").toList,
          by simp [sharedWarningMsg]⟩
    · rw [if_neg hsh] at hw
      exact absurd hw (fun h0 => Option.noConfusion h0)

/-- C3 witness: the amended theorem at the failing shared script template;
the copy is byte-identical and the warning embeds both the source path and
the failure reason. -/
theorem shared_fallback_copies_witness :
    alwaysFailRender (joinPath sharedScriptTemplateFile.dirs
        sharedScriptTemplateFile.name) =
      Except.error (("not a template").toList) ∧
    (processSharedFile alwaysFailRender sharedScriptTemplateFile).content =
      sharedScriptTemplateFile.content ∧
    ((processSharedFile alwaysFailRender sharedScriptTemplateFile).warning.isSome =
        true ↔
      pathSuffix (sharedDestName sharedScriptTemplateFile.name) = scriptExt) :=
  ⟨rfl,
   (shared_fallback_copies alwaysFailRender sharedScriptTemplateFile
     (("not a template").toList) rfl).2.1,
   (shared_fallback_copies alwaysFailRender sharedScriptTemplateFile
     (("not a template").toList) rfl).2.2.2.1⟩

/-! ## C9 — configuration loading -/

/-- C9: loading the configuration file never propagates a failure — a
missing file yields the empty mapping plus one warning naming the file, and
a malformed file yields the empty mapping plus one diagnostic that embeds
both the file name and the parse error; in both cases the caller continues
with the empty mapping. -/
theorem load_variables_recovers (readFile : Option (List Char))
    (parseJson : List Char → Except (List Char) VarMap)
    (config_file : List Char) :
    (readFile = Option.none →
      (load_variables_from_file readFile parseJson config_file).1 = [] ∧
      (load_variables_from_file readFile parseJson config_file).2 =
        [configMissingMsg config_file] ∧
      config_file <:+: configMissingMsg config_file) ∧
    (∀ s e, readFile = some s → parseJson s = Except.error e →
      (load_variables_from_file readFile parseJson config_file).1 = [] ∧
      (load_variables_from_file readFile parseJson config_file).2 =
        [configBadJsonMsg config_file e] ∧
      e <:+: configBadJsonMsg config_file e ∧
      config_file <:+: configBadJsonMsg config_file e) := by
  constructor
  · intro h
    subst h
    refine ⟨rfl, rfl, ?_⟩
    exact ⟨("Warning: Configuration file '").toList,
      ("' not found. Using defaults.").toList, by simp [configMissingMsg]⟩
  · intro s e hr hp
    subst hr
    have hred : load_variables_from_file (some s) parseJson config_file =
        ([], [configBadJsonMsg config_file e]) := by
      have hx : load_variables_from_file (some s) parseJson config_file =
          (match parseJson s with
           | Except.ok vars => (vars, [])
           | Except.error e2 => ([], [configBadJsonMsg config_file e2])) := rfl
      rw [hx, hp]
    rw [hred]
    refine ⟨rfl, rfl, ?_, ?_⟩
    · exact ⟨("Error: Invalid JSON in '").toList ++ config_file ++
        ("': ").toList, [], by simp [configBadJsonMsg]⟩
    · exact ⟨("Error: Invalid JSON in '").toList,
        ("': ").toList ++ e, by simp [configBadJsonMsg]⟩

/-- C9 witness: the malformed-file case at a concrete file name and parser
message. -/
theorem load_variables_recovers_witness :
    alwaysFailParse (("oops").toList) =
      Except.error (("Expecting value: line 1 column 1 (char 0)").toList) ∧
    (load_variables_from_file (some (("oops").toList)) alwaysFailParse
      (("project.json").toList)).1 = [] ∧
    (load_variables_from_file (some (("oops").toList)) alwaysFailParse
      (("project.json").toList)).2 =
      [configBadJsonMsg (("project.json").toList)
        (("Expecting value: line 1 column 1 (char 0)").toList)] :=
  ⟨rfl,
   ((load_variables_recovers (some (("oops").toList)) alwaysFailParse
       (("project.json").toList)).2 (("oops").toList)
     (("Expecting value: line 1 column 1 (char 0)").toList) rfl rfl).1,
   ((load_variables_recovers (some (("oops").toList)) alwaysFailParse
       (("project.json").toList)).2 (("oops").toList)
     (("Expecting value: line 1 column 1 (char 0)").toList) rfl rfl).2.1⟩
